import Mathlib

/-!
Shallow embedding of `HackDook/backend/models/zoom_parser.py` (the canonical
parsing / merging / categorization pipeline) together with theorems checking
the natural-language specification against it.

Modelling conventions:
* Python `str` is modelled by Lean `String`; all string algorithms are
  re-implemented structurally over `List Char` so that every definition
  reduces in the kernel (Python's `str.split`, `str.strip`,
  `str.splitlines`, `re.findall(r'\w+', ...)`, `re.search` of the
  word-bounded literal patterns built by `load_ngrams`, and `int(...)` each
  get an explicit executable model, restricted to the ASCII behaviour that
  the repository's inputs exercise).
* Python `float` arithmetic is modelled by `ℚ` (the quantities involved are
  small exact decimals).
* A Python function that can raise an exception is modelled with `Option`:
  `none` means the call raises (`ValueError` / `TypeError`).
* Python dicts built by the parsers are modelled by the `Entry` structure;
  keys that a given kind of entry never carries are modelled by the value
  that `dict.get(key, default)` would produce for them.
-/

namespace ZoomParser

/-! ### Python string primitives -/

/-- Characters stripped by Python `str.strip()` (ASCII whitespace). -/
def isPySpace (c : Char) : Bool :=
  c = ' ' || c = '\t' || c = '\n' || c = '\x0d' || c = '\x0b' || c = '\x0c'

/-- Model of Python `str.strip()` on a character list. -/
def pyStripL (s : List Char) : List Char :=
  ((s.dropWhile isPySpace).reverse.dropWhile isPySpace).reverse

/-- Model of Python `str.strip()`. -/
def pyStrip (s : String) : String :=
  ⟨pyStripL s.toList⟩

/-- Line-boundary characters recognised by Python `str.splitlines()`
(`\r\n` is additionally treated as a single boundary). -/
def isPyLineBreak (c : Char) : Bool :=
  c = '\n' || c = '\x0d' || c = '\x0b' || c = '\x0c' ||
  c = '\x1c' || c = '\x1d' || c = '\x1e' || c = '\x85' ||
  c.toNat = 0x2028 || c.toNat = 0x2029

/-- Worker for `pySplitlines`: `acc` holds the current line reversed. -/
def pySplitlinesAux : List Char → List Char → List (List Char)
  | acc, [] => if acc.isEmpty then [] else [acc.reverse]
  | acc, '\x0d' :: '\n' :: rest => acc.reverse :: pySplitlinesAux [] rest
  | acc, c :: rest =>
    if isPyLineBreak c then acc.reverse :: pySplitlinesAux [] rest
    else pySplitlinesAux (c :: acc) rest

/-- Model of Python `str.splitlines()`: no trailing empty element is
produced for a trailing line break, and `""` yields `[]`. -/
def pySplitlines (s : String) : List String :=
  (pySplitlinesAux [] s.toList).map fun l => ⟨l⟩

/-- Fuelled worker for `splitOnL` (leftmost, non-overlapping separator
occurrences, empty chunks kept — the semantics of Python `str.split(sep)`
with an explicit non-empty separator). -/
def splitGo (sep : List Char) : Nat → List Char → List (List Char)
  | _, [] => [[]]
  | 0, s => [s]
  | n + 1, c :: rest =>
    if sep.isPrefixOf (c :: rest) then
      [] :: splitGo sep n ((c :: rest).drop sep.length)
    else
      match splitGo sep n rest with
      | [] => [[c]]
      | chunk :: more => (c :: chunk) :: more

/-- Model of Python `str.split(sep)` for a non-empty separator `sep`. -/
def splitOnL (sep s : List Char) : List (List Char) :=
  splitGo sep s.length s

/-- Join chunks with a separator (Python `sep.join(...)`). -/
def joinSep (sep : List Char) : List (List Char) → List Char
  | [] => []
  | [x] => x
  | x :: xs => x ++ sep ++ joinSep sep xs

/-- Digit-run validity for Python `int(text)`: digits with single
underscores strictly between digits (Python 3 numeric literals). -/
def digitsUSAux : List Char → Bool
  | [] => true
  | ['_'] => false
  | '_' :: c :: rest => c.isDigit && digitsUSAux rest
  | c :: rest => c.isDigit && digitsUSAux rest

/-- A nonempty digit run (underscore separators allowed inside). -/
def digitsUS : List Char → Bool
  | [] => false
  | c :: rest => c.isDigit && digitsUSAux rest

/-- Numeric value of a digit run, ignoring underscores. -/
def digitsVal : List Char → Nat → Nat
  | [], acc => acc
  | '_' :: rest, acc => digitsVal rest acc
  | c :: rest, acc => digitsVal rest (acc * 10 + (c.toNat - '0'.toNat))

/-- Model of Python `int(text)` (base 10): surrounding whitespace is
stripped, one optional sign, then a digit run; anything else raises
`ValueError` (`none`). -/
def pyIntL (s : List Char) : Option ℤ :=
  match pyStripL s with
  | [] => none
  | c :: rest =>
    if c = '+' then
      if digitsUS rest then some (digitsVal rest 0 : ℤ) else none
    else if c = '-' then
      if digitsUS rest then some (-(digitsVal rest 0 : ℤ)) else none
    else
      if digitsUS (c :: rest) then some (digitsVal (c :: rest) 0 : ℤ) else none

/-! ### Timestamp Codec (`timestamp_to_seconds`) -/

/-- Model of `timestamp_to_seconds` from `zoom_parser.py`: split on `":"`;
exactly three components required (otherwise `ValueError`); the third
component is split on `"."`, contributing `int(sec_parts[1])` milliseconds
exactly when that split has exactly two components. Any failing `int(...)`
conversion is also a `ValueError` (`none`). -/
def timestamp_to_seconds (ts : String) : Option ℚ :=
  match splitOnL [':'] ts.toList with
  | [p0, p1, p2] =>
    match pyIntL p0, pyIntL p1 with
    | some hours, some minutes =>
      let secParts := splitOnL ['.'] p2
      match pyIntL (secParts.headD []) with
      | some seconds =>
        match secParts with
        | [_, ms] =>
          match pyIntL ms with
          | some milliseconds =>
            some ((hours : ℚ) * 3600 + (minutes : ℚ) * 60 + (seconds : ℚ)
                  + (milliseconds : ℚ) / 1000)
          | none => none
        | _ =>
          some ((hours : ℚ) * 3600 + (minutes : ℚ) * 60 + (seconds : ℚ))
      | none => none
    | _, _ => none
  | _ => none

/-! ### Porter stemmer (model of `nltk.stem.porter.PorterStemmer`, default
`NLTK_EXTENSIONS` mode, as constructed by `stem_text` / `load_ngrams` /
`categorize_message` / `write_csv`) -/

/-- The five vowel letters of the stemmer. -/
def pVowels : List Char := ['a', 'e', 'i', 'o', 'u']

/-- Model of `PorterStemmer._is_consonant word i`: a letter is a consonant
unless it is a vowel, or it is `y` preceded by a consonant. -/
def isCons (w : List Char) : Nat → Bool
  | 0 =>
    let c := w.getD 0 '*'
    if pVowels.contains c then false else true
  | i + 1 =>
    let c := w.getD (i + 1) '*'
    if pVowels.contains c then false
    else if c = 'y' then !(isCons w i)
    else true

/-- The consonant/vowel flag sequence of a word (`true` = consonant). -/
def cvFlags (w : List Char) : List Bool :=
  (List.range w.length).map (isCons w)

/-- Count occurrences of a vowel flag directly followed by a consonant
flag (`cv_sequence.count("vc")`). -/
def countVC : List Bool → Nat
  | b1 :: b2 :: rest => (if !b1 && b2 then 1 else 0) + countVC (b2 :: rest)
  | _ => 0

/-- Model of `PorterStemmer._measure`. -/
def pMeasure (w : List Char) : Nat :=
  countVC (cvFlags w)

/-- Model of `PorterStemmer._contains_vowel`. -/
def containsVowel (w : List Char) : Bool :=
  (List.range w.length).any fun i => !(isCons w i)

/-- Model of `PorterStemmer._ends_double_consonant`. -/
def endsDoubleCons (w : List Char) : Bool :=
  decide (2 ≤ w.length) && w.getD (w.length - 1) '*' = w.getD (w.length - 2) '*'
    && isCons w (w.length - 1)

/-- Model of `PorterStemmer._ends_cvc` (with the NLTK-extension clause for
two-letter words). -/
def endsCVC (w : List Char) : Bool :=
  (decide (3 ≤ w.length) && isCons w (w.length - 3) && !(isCons w (w.length - 2))
    && isCons w (w.length - 1) && !(['w', 'x', 'y'].contains (w.getD (w.length - 1) '*')))
  || (decide (w.length = 2) && !(isCons w 0) && isCons w 1)

/-- One rewrite rule of `_apply_rule_list`: a suffix, a replacement, an
optional condition on the stem, and the `*d` (ends-in-double-consonant)
marker. -/
structure PRule where
  suffix : List Char
  repl : List Char
  cond : Option (List Char → Bool) := none
  starD : Bool := false

/-- Model of `PorterStemmer._apply_rule_list`: the first rule whose suffix
matches fires; if its condition then fails the word is returned unchanged
(later rules are not tried). -/
def applyRuleList (w : List Char) : List PRule → List Char
  | [] => w
  | r :: rs =>
    if r.starD then
      if endsDoubleCons w then
        let stem := w.take (w.length - 2)
        match r.cond with
        | none => stem ++ r.repl
        | some f => if f stem then stem ++ r.repl else w
      else applyRuleList w rs
    else if r.suffix.isSuffixOf w then
      let stem := w.take (w.length - r.suffix.length)
      match r.cond with
      | none => stem ++ r.repl
      | some f => if f stem then stem ++ r.repl else w
    else applyRuleList w rs

/-- Model of `PorterStemmer._step1a` (with the NLTK `ies`/length-4 rule). -/
def step1a (w : List Char) : List Char :=
  if "ies".toList.isSuffixOf w && w.length == 4 then
    w.take (w.length - 3) ++ "ie".toList
  else
    applyRuleList w [
      ⟨"sses".toList, "ss".toList, none, false⟩,
      ⟨"ies".toList, "i".toList, none, false⟩,
      ⟨"ss".toList, "ss".toList, none, false⟩,
      ⟨"s".toList, [], none, false⟩]

/-- The rule list applied to the intermediate stem at the end of
`_step1b` (its `*d` rule re-appends the stem's last letter, undoubling a
final double consonant unless it is `l`, `s` or `z`). -/
def step1bPost (inter : List Char) : List Char :=
  applyRuleList inter [
    ⟨"at".toList, "ate".toList, none, false⟩,
    ⟨"bl".toList, "ble".toList, none, false⟩,
    ⟨"iz".toList, "ize".toList, none, false⟩,
    ⟨[], [inter.getD (inter.length - 1) '*'],
      some fun _ => !(['l', 's', 'z'].contains (inter.getD (inter.length - 1) '*')), true⟩,
    ⟨[], ['e'], some fun stem => pMeasure stem == 1 && endsCVC stem, false⟩]

/-- Model of `PorterStemmer._step1b` (with the NLTK `ied` rule). -/
def step1b (w : List Char) : List Char :=
  if "ied".toList.isSuffixOf w then
    if w.length == 4 then w.take (w.length - 3) ++ "ie".toList
    else w.take (w.length - 3) ++ "i".toList
  else if "eed".toList.isSuffixOf w then
    let stem := w.take (w.length - 3)
    if 0 < pMeasure stem then stem ++ "ee".toList else w
  else if "ed".toList.isSuffixOf w && containsVowel (w.take (w.length - 2)) then
    step1bPost (w.take (w.length - 2))
  else if "ing".toList.isSuffixOf w && containsVowel (w.take (w.length - 3)) then
    step1bPost (w.take (w.length - 3))
  else w

/-- Model of `PorterStemmer._step1c` (NLTK condition: the stem has length
greater than one and ends in a consonant). -/
def step1c (w : List Char) : List Char :=
  applyRuleList w [
    ⟨['y'], ['i'],
      some fun stem => decide (1 < stem.length) && isCons stem (stem.length - 1), false⟩]

/-- The step-2 rule table (NLTK mode: `bli`→`ble` instead of
`abli`→`able`, plus the appended `fulli` and `logi` rules; the `logi`
condition looks at the whole word minus its last three letters). -/
def step2Rules (w : List Char) : List PRule :=
  [⟨"ational".toList, "ate".toList, some fun st => 0 < pMeasure st, false⟩,
   ⟨"tional".toList, "tion".toList, some fun st => 0 < pMeasure st, false⟩,
   ⟨"enci".toList, "ence".toList, some fun st => 0 < pMeasure st, false⟩,
   ⟨"anci".toList, "ance".toList, some fun st => 0 < pMeasure st, false⟩,
   ⟨"izer".toList, "ize".toList, some fun st => 0 < pMeasure st, false⟩,
   ⟨"bli".toList, "ble".toList, some fun st => 0 < pMeasure st, false⟩,
   ⟨"alli".toList, "al".toList, some fun st => 0 < pMeasure st, false⟩,
   ⟨"entli".toList, "ent".toList, some fun st => 0 < pMeasure st, false⟩,
   ⟨"eli".toList, "e".toList, some fun st => 0 < pMeasure st, false⟩,
   ⟨"ousli".toList, "ous".toList, some fun st => 0 < pMeasure st, false⟩,
   ⟨"ization".toList, "ize".toList, some fun st => 0 < pMeasure st, false⟩,
   ⟨"ation".toList, "ate".toList, some fun st => 0 < pMeasure st, false⟩,
   ⟨"ator".toList, "ate".toList, some fun st => 0 < pMeasure st, false⟩,
   ⟨"alism".toList, "al".toList, some fun st => 0 < pMeasure st, false⟩,
   ⟨"iveness".toList, "ive".toList, some fun st => 0 < pMeasure st, false⟩,
   ⟨"fulness".toList, "ful".toList, some fun st => 0 < pMeasure st, false⟩,
   ⟨"ousness".toList, "ous".toList, some fun st => 0 < pMeasure st, false⟩,
   ⟨"aliti".toList, "al".toList, some fun st => 0 < pMeasure st, false⟩,
   ⟨"iviti".toList, "ive".toList, some fun st => 0 < pMeasure st, false⟩,
   ⟨"biliti".toList, "ble".toList, some fun st => 0 < pMeasure st, false⟩,
   ⟨"fulli".toList, "ful".toList, some fun st => 0 < pMeasure st, false⟩,
   ⟨"logi".toList, "log".toList, some fun _ => 0 < pMeasure (w.take (w.length - 3)), false⟩]

/-- Fuelled worker for `step2`. The NLTK extension first rewrites a
suffix `alli` (with positive-measure stem) to `al` and recurses; each
recursion shortens the word, so `w.length` fuel never runs out. -/
def step2Go : Nat → List Char → List Char
  | 0, w => w
  | fuel + 1, w =>
    if "alli".toList.isSuffixOf w && 0 < pMeasure (w.take (w.length - 4)) then
      step2Go fuel (w.take (w.length - 4) ++ "al".toList)
    else
      applyRuleList w (step2Rules w)

/-- Model of `PorterStemmer._step2` (NLTK mode). -/
def step2 (w : List Char) : List Char :=
  step2Go w.length w

/-- Model of `PorterStemmer._step3`. -/
def step3 (w : List Char) : List Char :=
  applyRuleList w [
    ⟨"icate".toList, "ic".toList, some fun st => 0 < pMeasure st, false⟩,
    ⟨"ative".toList, [], some fun st => 0 < pMeasure st, false⟩,
    ⟨"alize".toList, "al".toList, some fun st => 0 < pMeasure st, false⟩,
    ⟨"iciti".toList, "ic".toList, some fun st => 0 < pMeasure st, false⟩,
    ⟨"ical".toList, "ic".toList, some fun st => 0 < pMeasure st, false⟩,
    ⟨"ful".toList, [], some fun st => 0 < pMeasure st, false⟩,
    ⟨"ness".toList, [], some fun st => 0 < pMeasure st, false⟩]

/-- Model of `PorterStemmer._step4` (measure of the stem must exceed one;
the `ion` rule additionally requires the stem to end in `s` or `t`). -/
def step4 (w : List Char) : List Char :=
  applyRuleList w [
    ⟨"al".toList, [], some fun st => 1 < pMeasure st, false⟩,
    ⟨"ance".toList, [], some fun st => 1 < pMeasure st, false⟩,
    ⟨"ence".toList, [], some fun st => 1 < pMeasure st, false⟩,
    ⟨"er".toList, [], some fun st => 1 < pMeasure st, false⟩,
    ⟨"ic".toList, [], some fun st => 1 < pMeasure st, false⟩,
    ⟨"able".toList, [], some fun st => 1 < pMeasure st, false⟩,
    ⟨"ible".toList, [], some fun st => 1 < pMeasure st, false⟩,
    ⟨"ant".toList, [], some fun st => 1 < pMeasure st, false⟩,
    ⟨"ement".toList, [], some fun st => 1 < pMeasure st, false⟩,
    ⟨"ment".toList, [], some fun st => 1 < pMeasure st, false⟩,
    ⟨"ent".toList, [], some fun st => 1 < pMeasure st, false⟩,
    ⟨"ion".toList, [],
      some fun st => decide (1 < pMeasure st) && ['s', 't'].contains (st.getD (st.length - 1) '*'),
      false⟩,
    ⟨"ou".toList, [], some fun st => 1 < pMeasure st, false⟩,
    ⟨"ism".toList, [], some fun st => 1 < pMeasure st, false⟩,
    ⟨"ate".toList, [], some fun st => 1 < pMeasure st, false⟩,
    ⟨"iti".toList, [], some fun st => 1 < pMeasure st, false⟩,
    ⟨"ous".toList, [], some fun st => 1 < pMeasure st, false⟩,
    ⟨"ive".toList, [], some fun st => 1 < pMeasure st, false⟩,
    ⟨"ize".toList, [], some fun st => 1 < pMeasure st, false⟩]

/-- Model of `PorterStemmer._step5a`: drop a final `e` when the remaining
stem has measure above one, or measure one without a `cvc` ending. -/
def step5a (w : List Char) : List Char :=
  if "e".toList.isSuffixOf w then
    let stem := w.take (w.length - 1)
    if 1 < pMeasure stem then stem
    else if pMeasure stem == 1 && !(endsCVC stem) then stem
    else w
  else w

/-- Model of `PorterStemmer._step5b`: undouble a final `ll` when the word
minus its last letter has measure above one. -/
def step5b (w : List Char) : List Char :=
  applyRuleList w [
    ⟨"ll".toList, "l".toList, some fun _ => 1 < pMeasure (w.take (w.length - 1)), false⟩]

/-- The NLTK irregular-form pool (mode `NLTK_EXTENSIONS`), as a lookup
list; dictionary iteration order does not matter for lookups. -/
def porterPool : List (List Char × List Char) :=
  [("sky".toList, "sky".toList), ("skies".toList, "sky".toList),
   ("dying".toList, "die".toList), ("lying".toList, "lie".toList),
   ("tying".toList, "tie".toList), ("news".toList, "news".toList),
   ("innings".toList, "inning".toList), ("inning".toList, "inning".toList),
   ("outings".toList, "outing".toList), ("outing".toList, "outing".toList),
   ("cannings".toList, "canning".toList), ("canning".toList, "canning".toList),
   ("howe".toList, "howe".toList), ("proceed".toList, "proceed".toList),
   ("exceed".toList, "exceed".toList), ("succeed".toList, "succeed".toList)]

/-- Pool lookup (Python `word in self.pool` / `self.pool[stem]`). -/
def poolLookup (w : List Char) : Option (List Char) :=
  (porterPool.find? fun p => p.1 == w).map Prod.snd

/-- ASCII model of Python `str.lower()` on one character. -/
def pyToLower (c : Char) : Char :=
  if 'A' ≤ c && c ≤ 'Z' then Char.ofNat (c.toNat + 32) else c

/-- Model of `PorterStemmer.stem` (default `to_lowercase=True`): pool
words are answered from the pool, words of length at most two are
returned unchanged, everything else runs through steps 1a–5b. -/
def porterStem (w : List Char) : List Char :=
  let wl := w.map pyToLower
  match poolLookup w with
  | some r => r
  | none =>
    if w.length ≤ 2 then wl
    else step5b (step5a (step4 (step3 (step2 (step1c (step1b (step1a wl)))))))

/-! ### Text Normalizer (`stem_text`) -/

/-- Python regex word character (`\w`), ASCII: alphanumeric or underscore. -/
def isWordChar (c : Char) : Bool :=
  c.isAlphanum || c = '_'

/-- Worker for `pyWords`: splits a character list into maximal runs of
word characters (`re.findall(r"\w+", ...)`); `acc` is the current run
reversed. -/
def pyWordsAux : List Char → List Char → List (List Char)
  | acc, [] => if acc.isEmpty then [] else [acc.reverse]
  | acc, c :: rest =>
    if isWordChar c then pyWordsAux (c :: acc) rest
    else if acc.isEmpty then pyWordsAux [] rest
    else acc.reverse :: pyWordsAux [] rest

/-- Model of `re.findall(r"\w+", text.lower())` as used by `stem_text`. -/
def pyWords (text : String) : List (List Char) :=
  pyWordsAux [] (text.toList.map pyToLower)

/-- Model of `stem_text`: lowercase, split into `\w+` tokens, Porter-stem
each token, re-join with single spaces. -/
def stem_text (text : String) : String :=
  ⟨joinSep [' '] ((pyWords text).map porterStem)⟩

/-! ### Rule records and the Categorizer -/

/-- One loaded n-gram rule, as built by `load_ngrams` (its compiled
regex `\b<escaped stemmed phrase>\b` is a function of `stemmed_phrase`
and is modelled by `searchBounded`). -/
structure Ngram where
  phrase : String
  ngram_type : String
  category : String
  stemmed_phrase : String
deriving DecidableEq, Repr

/-- Whether the character at index `j` of `m` exists and is a word
character. -/
def wordAt (m : List Char) (j : Nat) : Bool :=
  match m.get? j with
  | some c => isWordChar c
  | none => false

/-- Python regex `\b` at position `k` of `m`: word-character-ness differs
between the two sides of the position. -/
def atBoundary (m : List Char) (k : Nat) : Bool :=
  (match k with
   | 0 => false
   | j + 1 => wordAt m j) != wordAt m k

/-- Model of `pattern.search(m)` for the pattern
`re.compile(r"\b" + re.escape(p) + r"\b")`: some position `i` carries a
word boundary, is followed by the literal `p`, and has a word boundary
after it. -/
def searchBounded (p m : List Char) : Bool :=
  (List.range (m.length + 1)).any fun i =>
    atBoundary m i && (m.drop i).take p.length == p && atBoundary m (i + p.length)

/-- Model of the per-category counter dictionary update
`counts[cat] = counts.get(cat, 0) + 1` on the insertion-ordered
association list that models a Python dict. -/
def bumpCount (cs : List (String × Nat)) (cat : String) : List (String × Nat) :=
  if cs.any fun p => p.1 == cat then
    cs.map fun p => if p.1 == cat then (p.1, p.2 + 1) else p
  else cs ++ [(cat, 1)]

/-- Python `max(counts.values())`, as a fold (counts are all positive, so
the `0` seed is inert on the nonempty lists this is applied to). -/
def maxVals (cs : List (String × Nat)) : Nat :=
  cs.foldl (fun a p => max a p.2) 0

/-- Model of `", ".join(categories)`. -/
def joinCommaSpace (l : List String) : String :=
  ⟨joinSep [',', ' '] (l.map String.toList)⟩

/-- Model of `categorize_message`: stem the message, give every rule whose
compiled pattern matches one vote for its category, then return
`"uncategorized"` when nothing matched and otherwise the categories with
the maximal count, joined by `", "` in dict insertion order. -/
def categorize_message (message : String) (ngrams_list : List Ngram) : String :=
  let messageStemmed := (stem_text message).toList
  let counts := ngrams_list.foldl
    (fun cs ng =>
      if searchBounded ng.stemmed_phrase.toList messageStemmed then bumpCount cs ng.category
      else cs)
    []
  if counts.isEmpty then "uncategorized"
  else
    let maxCount := maxVals counts
    joinCommaSpace ((counts.filter fun p => p.2 == maxCount).map Prod.fst)

/-! ### Utterance records -/

/-- Common model of the dicts built by `parse_vtt` (keys `type`,
`block_index`, `timestamp`, `time`, `end`, `speaker`, `text`) and
`parse_chat_log` (keys `type`, `timestamp`, `time`, `speaker`,
`message`). A key a kind never carries holds the `dict.get` default that
every reader of that key uses: `block_index`, `text` and `message`
default to `""`; a chat entry's absent `end` key and a transcript's
explicit `None` both appear as `none`. `time` is `none` exactly when the
stored Python value is `None`. -/
structure Entry where
  type : String
  block_index : String
  timestamp : Option String
  time : Option ℚ
  endTime : Option String
  speaker : String
  text : String
  message : String
deriving DecidableEq, Repr

/-! ### Chat Parser (`parse_chat_log`) -/

/-- The speaker field of a chat line: the second tab field stripped, with
one trailing colon removed and re-stripped. -/
def chatSpeaker (p1 : List Char) : String :=
  let speaker0 := pyStripL p1
  if speaker0.getLastD '*' = ':' && !speaker0.isEmpty then
    ⟨pyStripL (speaker0.take (speaker0.length - 1))⟩
  else ⟨speaker0⟩

/-- Model of one iteration of the `parse_chat_log` loop on a raw line:
`none` = the iteration raises `ValueError` (malformed timestamp),
`some none` = the line is skipped (blank, or fewer than three
tab-separated fields), `some (some e)` = an entry is appended. -/
def processChatLine (line : String) : Option (Option Entry) :=
  match pyStripL line.toList with
  | [] => some none
  | _ :: _ =>
    match splitOnL ['\t'] (pyStripL line.toList) with
    | p0 :: p1 :: p2 :: _ =>
      match timestamp_to_seconds ⟨pyStripL p0⟩ with
      | some t =>
        some (some
          { type := "chat", block_index := "", timestamp := some ⟨pyStripL p0⟩,
            time := some t, endTime := none, speaker := chatSpeaker p1,
            text := "", message := ⟨pyStripL p2⟩ })
      | none => none
    | _ => some none

/-- Collect the per-line results, propagating a raised exception. -/
def collectChat : List String → Option (List Entry)
  | [] => some []
  | l :: ls =>
    match processChatLine l with
    | none => none
    | some none => collectChat ls
    | some (some e) => (collectChat ls).map (e :: ·)

/-- Model of `parse_chat_log` on the text content of the chat log
(`read_text` is the identity on an in-memory text source). -/
def parse_chat_log (content : String) : Option (List Entry) :=
  collectChat (pySplitlines content)

/-! ### Caption Parser (`parse_vtt`) -/

/-- Test of `re.match(r"^\d+$", s)` for an already-stripped line. -/
def isDigitsLine (s : List Char) : Bool :=
  !s.isEmpty && s.all Char.isDigit

/-- The lines of one caption block (`block.strip().splitlines()`). -/
def vttLines (block : String) : List String :=
  pySplitlines (pyStrip block)

/-- The block-index label of a caption block: its first line when that
line is purely numeric, `""` otherwise. -/
def vttBlockIndex (block : String) : String :=
  match vttLines block with
  | [] => ""
  | l0 :: _ => if isDigitsLine (pyStripL l0.toList) then pyStrip l0 else ""

/-- The range line of a caption block: the second line when the first is
purely numeric (or `""` when there is no second line), the first line
otherwise. -/
def vttTimestampLine (block : String) : String :=
  match vttLines block with
  | [] => ""
  | l0 :: rest =>
    if isDigitsLine (pyStripL l0.toList) then
      match rest with
      | [] => ""
      | l1 :: _ => pyStrip l1
    else pyStrip l0

/-- The text lines of a caption block (the lines after the range line). -/
def vttTextLines (block : String) : List String :=
  match vttLines block with
  | [] => []
  | l0 :: rest =>
    if isDigitsLine (pyStripL l0.toList) then rest.drop 1 else rest

/-- The `(start, end)` pair parsed from the range line: splitting on
`-->` must yield exactly two parts, otherwise both stay `None`. -/
def vttStartEnd (block : String) : Option String × Option String :=
  match splitOnL "-->".toList (vttTimestampLine block).toList with
  | [a, b] => (some ⟨pyStripL a⟩, some ⟨pyStripL b⟩)
  | _ => (none, none)

/-- The joined, stripped text of a caption block. -/
def vttText (block : String) : String :=
  ⟨pyStripL (joinSep [' '] ((vttTextLines block).map String.toList))⟩

/-- The `(speaker, message)` split of the block text on the first colon
(`text.split(":", 1)`), both sides stripped; no colon means an empty
speaker. -/
def vttSpeakerMessage (block : String) : String × String :=
  let text := (vttText block).toList
  match splitOnL [':'] text with
  | [_] => ("", ⟨text⟩)
  | a :: rest => (⟨pyStripL a⟩, ⟨pyStripL (joinSep [':'] rest)⟩)
  | [] => ("", ⟨text⟩)

/-- Model of one iteration of the `parse_vtt` loop on a block: `none` =
the iteration raises `ValueError` (`timestamp_to_seconds` on a nonempty
start text that is not a valid timestamp), `some none` = the block is
skipped (no lines), `some (some e)` = an entry is appended. The `time`
value is `timestamp_to_seconds(start) if start else None`, so a `None`
or empty (falsy) start yields `None` without calling the codec. -/
def processVttBlock (block : String) : Option (Option Entry) :=
  match vttLines block with
  | [] => some none
  | _ :: _ =>
    let (start?, end?) := vttStartEnd block
    let (speaker, message) := vttSpeakerMessage block
    let time? : Option (Option ℚ) :=
      match start? with
      | none => some none
      | some s =>
        if s = "" then some none
        else
          match timestamp_to_seconds s with
          | some t => some (some t)
          | none => none
    match time? with
    | none => none
    | some t =>
      some (some
        { type := "transcript", block_index := vttBlockIndex block,
          timestamp := start?, time := t, endTime := end?,
          speaker := speaker, text := message, message := "" })

/-- The blocks of a caption document: strip, split on blank lines, drop a
leading block that starts with the `WEBVTT` marker. -/
def vttBlocks (content : String) : List String :=
  let blocks : List String :=
    (splitOnL "\n\n".toList (pyStripL content.toList)).map fun l => ⟨l⟩
  match blocks with
  | [] => []
  | b :: rest =>
    if "WEBVTT".toList.isPrefixOf (pyStripL b.toList) then rest else blocks

/-- Collect the per-block results, propagating a raised exception. -/
def collectVtt : List String → Option (List Entry)
  | [] => some []
  | b :: bs =>
    match processVttBlock b with
    | none => none
    | some none => collectVtt bs
    | some (some e) => (collectVtt bs).map (e :: ·)

/-- Model of `parse_vtt` on the text content of the caption document. -/
def parse_vtt (content : String) : Option (List Entry) :=
  collectVtt (vttBlocks content)

/-! ### Timeline Merger (`combine_data`) -/

/-- The sort key `x.get("time", 0)` on the records the parsers build:
both kinds always carry the `time` key, so the `0` default is dead and
the key is the stored value — a float, or Python `None` for a caption
block whose range line did not parse. -/
def sortKey (e : Entry) : ℚ :=
  e.time.getD 0

/-- Stable insertion used to model Python's stable `list.sort`: an
element is placed before the first existing element with a key not
smaller than its own. -/
def insEntry (x : Entry) : List Entry → List Entry
  | [] => [x]
  | y :: ys => if sortKey x ≤ sortKey y then x :: y :: ys else y :: insEntry x ys

/-- Stable insertion sort on the `sortKey`; since a stable sort's output
is determined by sortedness plus stability, this coincides with CPython's
Timsort on these keys. -/
def isortEntries : List Entry → List Entry
  | [] => []
  | x :: xs => insEntry x (isortEntries xs)

/-- Model of `combine_data`. CPython's `list.sort` compares the extracted
keys with `<`; with two or more elements every key takes part in at
least one comparison, and any comparison involving `None` raises
`TypeError`, so the call raises (`none`) exactly when the concatenation
has at least two records and one of them carries `time = None`; with all
keys floats it performs a stable ascending sort. -/
def combine_data (transcript chat_entries : List Entry) : Option (List Entry) :=
  let combined := transcript ++ chat_entries
  if combined.length ≤ 1 then some combined
  else if combined.any fun e => e.time.isNone then none
  else some (isortEntries combined)

/-! ### Timeline Serializer (`write_csv`) -/

/-- A Python value placed in a CSV row cell. -/
inductive PyVal where
  | pstr (s : String)
  | pnum (q : ℚ)
  | pnone
deriving DecidableEq, Repr

/-- Model of `compute_semantic_similarity`: the external embedding service
is injected as the `encode` and `cosSim` collaborators. -/
def compute_semantic_similarity {Emb Mdl : Type} (cosSim : Emb → Emb → ℚ)
    (encode : Mdl → String → Emb) (message : String) (lesson_embedding : Emb)
    (model : Mdl) : ℚ :=
  cosSim (encode model message) lesson_embedding

/-- The row dict `write_csv` builds for one entry: the eight fixed keys,
then `assigned_category` when a rule list was supplied, then
`lesson_relevancy` when both a lesson embedding and a model were. -/
def csvRow {Emb Mdl : Type} (cosSim : Emb → Emb → ℚ) (encode : Mdl → String → Emb)
    (ngrams_list : Option (List Ngram)) (lesson_embedding : Option Emb)
    (model : Option Mdl) (e : Entry) : List (String × PyVal) :=
  let message := if e.type = "transcript" then e.text else e.message
  [("type", PyVal.pstr e.type),
   ("block_index", PyVal.pstr e.block_index),
   ("timestamp", (e.timestamp.map PyVal.pstr).getD PyVal.pnone),
   ("time", (e.time.map PyVal.pnum).getD PyVal.pnone),
   ("end", (e.endTime.map PyVal.pstr).getD PyVal.pnone),
   ("speaker", PyVal.pstr e.speaker),
   ("message", PyVal.pstr message),
   ("stemmed_message", PyVal.pstr (stem_text message))]
  ++ (match ngrams_list with
      | some ngl => [("assigned_category", PyVal.pstr (categorize_message message ngl))]
      | none => [])
  ++ (match lesson_embedding, model with
      | some le, some mdl =>
        [("lesson_relevancy", PyVal.pnum (compute_semantic_similarity cosSim encode message le mdl))]
      | _, _ => [])

/-- Model of `write_csv` as the pure data it serialises: the header
(fieldnames) and the list of row dicts (the CSV file writing itself is
I/O mechanics outside this model). -/
def write_csv {Emb Mdl : Type} (cosSim : Emb → Emb → ℚ) (encode : Mdl → String → Emb)
    (data : List Entry) (ngrams_list : Option (List Ngram))
    (lesson_embedding : Option Emb) (model : Option Mdl) :
    List String × List (List (String × PyVal)) :=
  let fieldnames :=
    ["type", "block_index", "timestamp", "time", "end", "speaker", "message",
     "stemmed_message"]
    ++ (if ngrams_list.isSome then ["assigned_category"] else [])
    ++ (if lesson_embedding.isSome && model.isSome then ["lesson_relevancy"] else [])
  (fieldnames, data.map (csvRow cosSim encode ngrams_list lesson_embedding model))

/-! ### Claim-side (declarative) companions -/

/-- Categories of the rules whose compiled pattern matches the stemmed
message, in rule order. -/
def matchedCats (message : String) (rules : List Ngram) : List String :=
  (rules.filter fun ng =>
    searchBounded ng.stemmed_phrase.toList (stem_text message).toList).map Ngram.category

/-- Worker for `firstDedup`: drop later duplicates, `seen` accumulating
the values already emitted. -/
def firstDedupAux : List String → List String → List String
  | _, [] => []
  | seen, c :: l =>
    if seen.contains c then firstDedupAux seen l
    else c :: firstDedupAux (c :: seen) l

/-- The distinct values of a list in order of first occurrence (the key
order of a Python dict built by insertion). -/
def firstDedup (l : List String) : List String :=
  firstDedupAux [] l

/-- The occurrence tally of a list, keyed in first-occurrence order —
the declarative description of the Categorizer's counter dict. -/
def tallySpec (l : List String) : List (String × Nat) :=
  (firstDedup l).map fun c => (c, l.count c)

/-- The largest per-category hit count of a category list. -/
def maxHitCount (l : List String) : Nat :=
  (firstDedup l).foldl (fun a c => max a (l.count c)) 0

/-! ### Evaluation lemmas (rational results do not reduce in the kernel,
so concrete codec values are derived symbolically and finished with
`norm_num`) -/

/-- `timestamp_to_seconds` fails when the text does not have exactly
three colon-separated components. -/
theorem t2s_badParts (ts : String)
    (h : (splitOnL [':'] ts.toList).length ≠ 3) :
    timestamp_to_seconds ts = none := by
  unfold timestamp_to_seconds
  split
  · rename_i p0 p1 p2 heq
    exact absurd (by rw [heq]; rfl) h
  · rfl

/-- Value of `timestamp_to_seconds` when the seconds component carries no
(single) dot. -/
theorem t2s_noDot (ts : String) (p0 p1 sec : List Char) (h m s : ℤ)
    (h1 : splitOnL [':'] ts.toList = [p0, p1, sec])
    (h2 : (splitOnL ['.'] sec).length ≠ 2)
    (hp0 : pyIntL p0 = some h) (hp1 : pyIntL p1 = some m)
    (hs : pyIntL ((splitOnL ['.'] sec).headD []) = some s) :
    timestamp_to_seconds ts = some ((h : ℚ) * 3600 + (m : ℚ) * 60 + (s : ℚ)) := by
  unfold timestamp_to_seconds
  rw [h1]
  dsimp only
  rw [hp0, hp1]
  dsimp only
  rcases hq : splitOnL ['.'] sec with _ | ⟨a, _ | ⟨b, _ | ⟨c, rest⟩⟩⟩
  · rw [hq] at hs
    dsimp only [List.headD] at hs
    rw [show pyIntL [] = (none : Option ℤ) from rfl] at hs
    exact Option.noConfusion hs
  · rw [hq] at hs
    dsimp only [List.headD] at hs ⊢
    rw [hs]
  · rw [hq] at h2
    exact absurd rfl h2
  · rw [hq] at hs
    dsimp only [List.headD] at hs ⊢
    rw [hs]

/-- Value of `timestamp_to_seconds` when the seconds component has
exactly one dot: the text after it contributes `int(text)/1000`. -/
theorem t2s_dot (ts : String) (p0 p1 sec s0 s1 : List Char) (h m s ms : ℤ)
    (h1 : splitOnL [':'] ts.toList = [p0, p1, sec])
    (h2 : splitOnL ['.'] sec = [s0, s1])
    (hp0 : pyIntL p0 = some h) (hp1 : pyIntL p1 = some m)
    (hs : pyIntL s0 = some s) (hms : pyIntL s1 = some ms) :
    timestamp_to_seconds ts
      = some ((h : ℚ) * 3600 + (m : ℚ) * 60 + (s : ℚ) + (ms : ℚ) / 1000) := by
  unfold timestamp_to_seconds
  rw [h1]
  dsimp only
  rw [hp0, hp1]
  dsimp only
  rw [h2]
  dsimp only [List.headD]
  rw [hs]
  dsimp only
  rw [hms]

/-- Concrete codec value used by several claims. -/
theorem t2s_val_5 : timestamp_to_seconds "00:00:05" = some 5 := by
  rw [t2s_noDot "00:00:05" "00".toList "00".toList "05".toList 0 0 5
    (by decide) (by decide) (by decide) (by decide) (by decide)]
  norm_num

/-- Concrete codec value used by several claims. -/
theorem t2s_val_1 : timestamp_to_seconds "00:00:01" = some 1 := by
  rw [t2s_noDot "00:00:01" "00".toList "00".toList "01".toList 0 0 1
    (by decide) (by decide) (by decide) (by decide) (by decide)]
  norm_num

/-- A chat line with at least three tab fields and a parsing timestamp
produces exactly this entry. -/
theorem processChatLine_entry (line : String) (p0 p1 p2 : List Char)
    (rest : List (List Char)) (t : ℚ)
    (h1 : splitOnL ['\t'] (pyStripL line.toList) = p0 :: p1 :: p2 :: rest)
    (h2 : timestamp_to_seconds ⟨pyStripL p0⟩ = some t) :
    processChatLine line = some (some
      { type := "chat", block_index := "", timestamp := some ⟨pyStripL p0⟩,
        time := some t, endTime := none, speaker := chatSpeaker p1,
        text := "", message := ⟨pyStripL p2⟩ }) := by
  rcases hstr : pyStripL line.toList with _ | ⟨c, cs⟩
  · rw [hstr] at h1
    rw [show splitOnL ['\t'] ([] : List Char) = [[]] from rfl] at h1
    simp at h1
  · unfold processChatLine
    rw [hstr] at h1 ⊢
    dsimp only
    rw [h1]
    dsimp only
    rw [h2]

/-- A one-line chat log yields exactly the entry of that line. -/
theorem parse_chat_log_single (line : String) (e : Entry)
    (hsl : pySplitlines line = [line])
    (hpe : processChatLine line = some (some e)) :
    parse_chat_log line = some [e] := by
  unfold parse_chat_log
  rw [hsl]
  unfold collectChat
  rw [hpe]
  rfl

/-! ### Claims -/

/-- C4: `timestamp_to_seconds` fails (with `ValueError`, the
`MalformedTimestamp` of the spec) when its input does not split into
exactly three colon-separated components; on valid input it returns
`hours*3600 + minutes*60 + seconds + milliseconds/1000`, milliseconds
defaulting to `0` when the `.` part is absent; in particular
`"01:02:03.500"` gives `3723.5`. -/
theorem timestamp_to_seconds_contract :
    (∀ ts : String, (splitOnL [':'] ts.toList).length ≠ 3 →
      timestamp_to_seconds ts = none)
    ∧ (∀ (ts : String) (p0 p1 sec : List Char) (h m s : ℤ),
        splitOnL [':'] ts.toList = [p0, p1, sec] →
        (splitOnL ['.'] sec).length ≠ 2 →
        pyIntL p0 = some h → pyIntL p1 = some m →
        pyIntL ((splitOnL ['.'] sec).headD []) = some s →
        timestamp_to_seconds ts = some ((h : ℚ) * 3600 + (m : ℚ) * 60 + (s : ℚ)))
    ∧ (∀ (ts : String) (p0 p1 sec s0 s1 : List Char) (h m s ms : ℤ),
        splitOnL [':'] ts.toList = [p0, p1, sec] →
        splitOnL ['.'] sec = [s0, s1] →
        pyIntL p0 = some h → pyIntL p1 = some m →
        pyIntL s0 = some s → pyIntL s1 = some ms →
        timestamp_to_seconds ts
          = some ((h : ℚ) * 3600 + (m : ℚ) * 60 + (s : ℚ) + (ms : ℚ) / 1000))
    ∧ timestamp_to_seconds "01:02:03.500" = some (7447 / 2) := by
  refine ⟨t2s_badParts, t2s_noDot, t2s_dot, ?_⟩
  rw [t2s_dot "01:02:03.500" "01".toList "02".toList "03.500".toList
    "03".toList "500".toList 1 2 3 500
    (by decide) (by decide) (by decide) (by decide) (by decide) (by decide)]
  norm_num

/-- Witness for C4: the valid-input conjunct applied at `"10:20:30"`. -/
theorem timestamp_to_seconds_contract_witness :
    timestamp_to_seconds "10:20:30"
      = some (((10 : ℤ) : ℚ) * 3600 + ((20 : ℤ) : ℚ) * 60 + ((30 : ℤ) : ℚ)) :=
  timestamp_to_seconds_contract.2.1 "10:20:30" "10".toList "20".toList
    "30".toList 10 20 30 (by decide) (by decide) (by decide) (by decide)
    (by decide)

/-- C10: `timestamp_to_seconds` reads the digits after the `.` as an
integer count of milliseconds regardless of digit count:
`"00:00:01.5"` gives `1.005` (not `1.5`) and `"00:00:01.5000"` gives
`6.0` (not `1.5`), since the fractional text `f` contributes
`int(f)/1000` seconds. -/
theorem timestamp_to_seconds_millis_literal :
    timestamp_to_seconds "00:00:01.5" = some (201 / 200)
    ∧ timestamp_to_seconds "00:00:01.5000" = some 6
    ∧ ((201 : ℚ) / 200 ≠ 3 / 2) ∧ ((6 : ℚ) ≠ 3 / 2) := by
  refine ⟨?_, ?_, by norm_num, by norm_num⟩
  · rw [t2s_dot "00:00:01.5" "00".toList "00".toList "01.5".toList
      "01".toList "5".toList 0 0 1 5
      (by decide) (by decide) (by decide) (by decide) (by decide) (by decide)]
    norm_num
  · rw [t2s_dot "00:00:01.5000" "00".toList "00".toList "01.5000".toList
      "01".toList "5000".toList 0 0 1 5000
      (by decide) (by decide) (by decide) (by decide) (by decide) (by decide)]
    norm_num

/-- C8 (counterexample): the Text Normalizer is not idempotent — on the
input "impeder" a second application of `stem_text` changes the result
again. -/
theorem stem_text_not_idempotent :
    stem_text (stem_text "impeder") ≠ stem_text "impeder" := by
  decide

/-- C8 (amended): `stem_text` is not idempotent; Porter stemming can
re-stem its own output: `stem_text "impeder" = "imped"` (step 4 strips
`er`), while `stem_text "imped" = "imp"` (step 1b then strips the final
`ed`). -/
theorem stem_text_restems_own_output :
    stem_text "impeder" = "imped" ∧ stem_text "imped" = "imp"
    ∧ ("imp" : String) ≠ "imped" := by
  refine ⟨by decide, by decide, by decide⟩

/-- C1 (code bug): a parsed caption whose range line did not parse has
`time = None` (the key is present, so `x.get("time", 0)` returns `None`,
not `0`), and merging it with any parsed chat record makes
`combine_data`'s `list.sort` raise `TypeError` instead of treating the
absent `startSeconds` as `0` and sorting that record first. -/
theorem combine_data_raises_on_absent_time :
    parse_vtt "hello world" = some
      [{ type := "transcript", block_index := "", timestamp := none,
         time := none, endTime := none, speaker := "", text := "",
         message := "" }]
    ∧ parse_chat_log "00:00:05\tBob:\tHi" = some
      [{ type := "chat", block_index := "", timestamp := some "00:00:05",
         time := some 5, endTime := none, speaker := "Bob", text := "",
         message := "Hi" }]
    ∧ combine_data
        [{ type := "transcript", block_index := "", timestamp := none,
           time := none, endTime := none, speaker := "", text := "",
           message := "" }]
        [{ type := "chat", block_index := "", timestamp := some "00:00:05",
           time := some 5, endTime := none, speaker := "Bob", text := "",
           message := "Hi" }] = none := by
  refine ⟨by decide, ?_, by decide⟩
  exact parse_chat_log_single _ _ (by decide)
    ((processChatLine_entry "00:00:05\tBob:\tHi" "00:00:05".toList
      "Bob:".toList "Hi".toList [] 5 (by decide) t2s_val_5).trans (by decide))

/-- C9: a chat line splitting into more than three tab-separated fields
is not skipped: `parse_chat_log` emits a record whose message is exactly
the third field, and every field after the third is silently discarded. -/
theorem parse_chat_log_extra_fields_kept :
    ∀ (line : String) (p0 p1 p2 : List Char) (rest : List (List Char)) (t : ℚ),
      splitOnL ['\t'] (pyStripL line.toList) = p0 :: p1 :: p2 :: rest →
      rest ≠ [] →
      timestamp_to_seconds ⟨pyStripL p0⟩ = some t →
      processChatLine line = some (some
        { type := "chat", block_index := "", timestamp := some ⟨pyStripL p0⟩,
          time := some t, endTime := none, speaker := chatSpeaker p1,
          text := "", message := ⟨pyStripL p2⟩ })
      ∧ (pySplitlines line = [line] →
          parse_chat_log line = some
            [{ type := "chat", block_index := "", timestamp := some ⟨pyStripL p0⟩,
               time := some t, endTime := none, speaker := chatSpeaker p1,
               text := "", message := ⟨pyStripL p2⟩ }]) := by
  intro line p0 p1 p2 rest t h1 hrest h2
  have hp := processChatLine_entry line p0 p1 p2 rest t h1 h2
  exact ⟨hp, fun hsl => parse_chat_log_single line _ hsl hp⟩

/-- Witness for C9: a four-field line; the fourth field `Extra` is
dropped and the message is the third field `Hi`. -/
theorem parse_chat_log_extra_fields_kept_witness :
    parse_chat_log "00:00:01\tBob:\tHi\tExtra" = some
      [{ type := "chat", block_index := "", timestamp := some "00:00:01",
         time := some 1, endTime := none, speaker := "Bob", text := "",
         message := "Hi" }] := by
  have h := (parse_chat_log_extra_fields_kept "00:00:01\tBob:\tHi\tExtra"
    "00:00:01".toList "Bob:".toList "Hi".toList ["Extra".toList] 1
    (by decide) (by decide) t2s_val_1).2 (by decide)
  exact h.trans (by decide)

/-- Every failure of `collectVtt` comes from some block's failure. -/
theorem collectVtt_none (bs : List String) (h : collectVtt bs = none) :
    ∃ b, b ∈ bs ∧ processVttBlock b = none := by
  induction bs with
  | nil => simp [collectVtt] at h
  | cons b bs ih =>
    unfold collectVtt at h
    rcases hb : processVttBlock b with _ | _ | e
    · exact ⟨b, by simp, hb⟩
    · rw [hb] at h
      obtain ⟨b', hm, hp⟩ := ih h
      exact ⟨b', by simp [hm], hp⟩
    · rw [hb] at h
      dsimp only at h
      rw [Option.map_eq_none'] at h
      obtain ⟨b', hm, hp⟩ := ih h
      exact ⟨b', by simp [hm], hp⟩

/-- A block iteration fails only through the Timestamp Codec: the range
line split into exactly two parts and the (nonempty) start text did not
parse. -/
theorem processVttBlock_none (b : String) (h : processVttBlock b = none) :
    ∃ s : String, (vttStartEnd b).1 = some s ∧ s ≠ ""
      ∧ timestamp_to_seconds s = none := by
  unfold processVttBlock at h
  rcases hl : vttLines b with _ | ⟨l0, ls⟩
  · rw [hl] at h
    simp at h
  · rw [hl] at h
    dsimp only at h
    rcases hse : vttStartEnd b with ⟨start?, end?⟩
    rw [hse] at h
    dsimp only at h
    rcases start? with _ | s
    · simp at h
    · dsimp only at h
      by_cases hs0 : s = ""
      · rw [if_pos hs0] at h
        simp at h
      · rw [if_neg hs0] at h
        rcases ht : timestamp_to_seconds s with _ | t
        · exact ⟨s, rfl, hs0, ht⟩
        · rw [ht] at h
          simp at h

/-- C3: `parse_vtt` never fails because of a malformed range line: a
non-empty block whose range line does not split on the arrow into
exactly two parts still produces an Utterance with `timestamp`, `end`
and `time` all unset, and a whole-parse failure can only come from a
range line that did split into two parts whose nonempty start text the
Timestamp Codec rejects. -/
theorem parse_vtt_malformed_range_tolerated :
    (∀ block : String, vttLines block ≠ [] →
        (splitOnL "-->".toList (vttTimestampLine block).toList).length ≠ 2 →
        processVttBlock block = some (some
          { type := "transcript", block_index := vttBlockIndex block,
            timestamp := none, time := none, endTime := none,
            speaker := (vttSpeakerMessage block).1,
            text := (vttSpeakerMessage block).2, message := "" }))
    ∧ (∀ content : String, parse_vtt content = none →
        ∃ b, b ∈ vttBlocks content ∧ ∃ s : String,
          (vttStartEnd b).1 = some s ∧ s ≠ ""
            ∧ timestamp_to_seconds s = none) := by
  constructor
  · intro block hne hlen
    have hse : vttStartEnd block = (none, none) := by
      unfold vttStartEnd
      rcases hq : splitOnL "-->".toList (vttTimestampLine block).toList with
        _ | ⟨a, _ | ⟨b, _ | ⟨c, rest⟩⟩⟩
      · rfl
      · rfl
      · rw [hq] at hlen
        exact absurd rfl hlen
      · rfl
    unfold processVttBlock
    rcases hl : vttLines block with _ | ⟨l0, ls⟩
    · exact absurd hl hne
    · rw [hse]
  · intro content hnone
    unfold parse_vtt at hnone
    obtain ⟨b, hm, hp⟩ := collectVtt_none (vttBlocks content) hnone
    obtain ⟨s, h1, h2, h3⟩ := processVttBlock_none b hp
    exact ⟨b, hm, s, h1, h2, h3⟩

/-- Witness for C3: the block "hello world" has no arrow in its range
line, yet parses to an utterance with absent timing. -/
theorem parse_vtt_malformed_range_tolerated_witness :
    processVttBlock "hello world" = some (some
      { type := "transcript", block_index := vttBlockIndex "hello world",
        timestamp := none, time := none, endTime := none,
        speaker := (vttSpeakerMessage "hello world").1,
        text := (vttSpeakerMessage "hello world").2, message := "" }) :=
  parse_vtt_malformed_range_tolerated.1 "hello world" (by decide) (by decide)

/-- A line iteration of `parse_chat_log` raises exactly when the
stripped line has at least three tab fields and a timestamp the codec
rejects. -/
theorem processChatLine_none_iff (line : String) :
    processChatLine line = none ↔
      ∃ p0 p1 p2 rest,
        splitOnL ['\t'] (pyStripL line.toList) = p0 :: p1 :: p2 :: rest ∧
        timestamp_to_seconds ⟨pyStripL p0⟩ = none := by
  constructor
  · intro h
    unfold processChatLine at h
    rcases hstr : pyStripL line.toList with _ | ⟨c, cs⟩
    · rw [hstr] at h
      simp at h
    · rw [hstr] at h
      dsimp only at h
      rcases hq : splitOnL ['\t'] (c :: cs) with _ | ⟨p0, _ | ⟨p1, _ | ⟨p2, rest⟩⟩⟩
      · rw [hq] at h
        simp at h
      · rw [hq] at h
        simp at h
      · rw [hq] at h
        simp at h
      · rw [hq] at h
        dsimp only at h
        rcases ht : timestamp_to_seconds ⟨pyStripL p0⟩ with _ | t
        · exact ⟨p0, p1, p2, rest, rfl, ht⟩
        · rw [ht] at h
          simp at h
  · rintro ⟨p0, p1, p2, rest, hq, ht⟩
    unfold processChatLine
    rcases hstr : pyStripL line.toList with _ | ⟨c, cs⟩
    · rw [hstr] at hq
      rw [show splitOnL ['\t'] ([] : List Char) = [[]] from rfl] at hq
      simp at hq
    · rw [hstr] at hq
      dsimp only
      rw [hq]
      dsimp only
      rw [ht]

/-- `collectChat` fails exactly when some line iteration raises. -/
theorem collectChat_none_iff (ls : List String) :
    collectChat ls = none ↔ ∃ l, l ∈ ls ∧ processChatLine l = none := by
  induction ls with
  | nil => simp [collectChat]
  | cons l ls ih =>
    unfold collectChat
    rcases hl : processChatLine l with _ | _ | e
    · constructor
      · intro _
        exact ⟨l, by simp, hl⟩
      · intro _
        rfl
    · rw [ih]
      constructor
      · rintro ⟨l', hm, hp⟩
        exact ⟨l', List.mem_cons_of_mem _ hm, hp⟩
      · rintro ⟨l', hm, hp⟩
        rcases List.mem_cons.mp hm with rfl | hm'
        · rw [hl] at hp
          simp at hp
        · exact ⟨l', hm', hp⟩
    · rw [Option.map_eq_none', ih]
      constructor
      · rintro ⟨l', hm, hp⟩
        exact ⟨l', List.mem_cons_of_mem _ hm, hp⟩
      · rintro ⟨l', hm, hp⟩
        rcases List.mem_cons.mp hm with rfl | hm'
        · rw [hl] at hp
          simp at hp
        · exact ⟨l', hm', hp⟩

/-- C2 (counterexample): a chat log whose first line has a malformed
timestamp makes `parse_chat_log` raise and return nothing at all, even
though its second line alone parses to a record — the malformed line is
not dropped at line granularity. -/
theorem parse_chat_log_not_line_granular :
    parse_chat_log "bad\tA:\thi\n00:00:01\tB:\tyo" = none
    ∧ parse_chat_log "00:00:01\tB:\tyo" = some
      [{ type := "chat", block_index := "", timestamp := some "00:00:01",
         time := some 1, endTime := none, speaker := "B", text := "",
         message := "yo" }] := by
  refine ⟨by decide, ?_⟩
  exact parse_chat_log_single _ _ (by decide)
    ((processChatLine_entry "00:00:01\tB:\tyo" "00:00:01".toList
      "B:".toList "yo".toList [] 1 (by decide) t2s_val_1).trans (by decide))

/-- C2 (amended): a malformed timestamp on a processed chat line
(non-blank, at least three tab-separated fields) is a hard failure for
the whole parse, not just for that line: `parse_chat_log` raises
`ValueError` — returning no records — exactly when such a line exists. -/
theorem parse_chat_log_malformed_timestamp_aborts :
    ∀ content : String,
      parse_chat_log content = none ↔
        ∃ line, line ∈ pySplitlines content ∧
          ∃ p0 p1 p2 rest,
            splitOnL ['\t'] (pyStripL line.toList) = p0 :: p1 :: p2 :: rest ∧
            timestamp_to_seconds ⟨pyStripL p0⟩ = none := by
  intro content
  unfold parse_chat_log
  rw [collectChat_none_iff]
  simp only [processChatLine_none_iff]

/-- Filtering on one key value commutes with stable insertion: the
elements the insertion passes over have strictly smaller keys, so they
never share the inserted element's key. -/
theorem filter_insEntry (k : ℚ) (x : Entry) (l : List Entry) :
    (insEntry x l).filter (fun e => decide (sortKey e = k))
      = if sortKey x = k then x :: l.filter (fun e => decide (sortKey e = k))
        else l.filter (fun e => decide (sortKey e = k)) := by
  induction l with
  | nil =>
    by_cases hx : sortKey x = k <;> simp [insEntry, List.filter_cons, hx]
  | cons y ys ih =>
    by_cases hle : sortKey x ≤ sortKey y
    · simp only [insEntry, if_pos hle]
      by_cases hx : sortKey x = k <;> simp [List.filter_cons, hx]
    · simp only [insEntry, if_neg hle]
      by_cases hx : sortKey x = k
      · have hy : ¬(sortKey y = k) := fun hy =>
          hle (le_of_eq (hx.trans hy.symm))
        simp [List.filter_cons, hy, ih, hx]
      · simp [List.filter_cons, ih, hx]

/-- Filtering on one key value sees through the stable insertion sort. -/
theorem filter_isort (k : ℚ) (l : List Entry) :
    (isortEntries l).filter (fun e => decide (sortKey e = k))
      = l.filter (fun e => decide (sortKey e = k)) := by
  induction l with
  | nil => rfl
  | cons x xs ih =>
    simp only [isortEntries]
    rw [filter_insEntry]
    by_cases hx : sortKey x = k
    · rw [if_pos hx, ih]
      simp [List.filter_cons, hx]
    · rw [if_neg hx, ih]
      simp [List.filter_cons, hx]

/-- C6: the merge is a stable sort — whenever `combine_data` succeeds,
the records carrying any fixed `startSeconds` key appear in the output
in exactly the order they had in the concatenated input (captions first,
then chat, each in original order). -/
theorem combine_data_stable :
    ∀ (transcript chat_entries out : List Entry),
      combine_data transcript chat_entries = some out →
      ∀ k : ℚ,
        out.filter (fun e => decide (sortKey e = k))
          = (transcript ++ chat_entries).filter (fun e => decide (sortKey e = k)) := by
  intro t c out h k
  unfold combine_data at h
  dsimp only at h
  by_cases h1 : (t ++ c).length ≤ 1
  · rw [if_pos h1] at h
    injection h with h2
    rw [← h2]
  · rw [if_neg h1] at h
    by_cases h2 : ((t ++ c).any fun e => e.time.isNone) = true
    · rw [if_pos h2] at h
      exact Option.noConfusion h
    · rw [if_neg h2] at h
      injection h with h3
      rw [← h3, filter_isort]

/-- A caption record at five seconds, for the stability witness. -/
def sampleCaption5 : Entry :=
  { type := "transcript", block_index := "", timestamp := some "00:00:05.000",
    time := some 5, endTime := some "00:00:06.000", speaker := "A", text := "x",
    message := "" }

/-- A chat record at five seconds, for the stability witness. -/
def sampleChat5 : Entry :=
  { type := "chat", block_index := "", timestamp := some "00:00:05",
    time := some 5, endTime := none, speaker := "B", text := "",
    message := "y" }

/-- Witness for C6: a caption and a chat record sharing
`startSeconds = 5` keep their caption-before-chat input order. -/
theorem combine_data_stable_witness :
    ([sampleCaption5, sampleChat5] : List Entry).filter
        (fun e => decide (sortKey e = (5 : ℚ)))
      = ([sampleCaption5] ++ [sampleChat5]).filter
        (fun e => decide (sortKey e = (5 : ℚ))) :=
  combine_data_stable [sampleCaption5] [sampleChat5]
    [sampleCaption5, sampleChat5] (by decide) 5

/-- The Categorizer's rule fold only looks at the matching rules'
categories, in order. -/
theorem categorize_foldl_eq (m : List Char) (rules : List Ngram)
    (acc : List (String × Nat)) :
    rules.foldl
        (fun cs ng =>
          if searchBounded ng.stemmed_phrase.toList m then bumpCount cs ng.category
          else cs) acc
      = ((rules.filter fun ng => searchBounded ng.stemmed_phrase.toList m).map
          Ngram.category).foldl bumpCount acc := by
  induction rules generalizing acc with
  | nil => rfl
  | cons r rs ih =>
    rw [List.foldl_cons, List.filter_cons]
    by_cases hr : searchBounded r.stemmed_phrase.toList m = true
    · rw [if_pos hr, if_pos hr, List.map_cons, List.foldl_cons, ih]
    · rw [if_neg hr, if_neg hr, ih]

/-- Membership in the deduplication worker. -/
theorem mem_firstDedupAux (x : String) (l : List String) :
    ∀ seen, x ∈ firstDedupAux seen l ↔ x ∈ l ∧ x ∉ seen := by
  induction l with
  | nil => intro seen; simp [firstDedupAux]
  | cons c l ih =>
    intro seen
    unfold firstDedupAux
    by_cases hc : seen.contains c = true
    · rw [if_pos hc, ih]
      constructor
      · rintro ⟨hm, hs⟩
        exact ⟨List.mem_cons_of_mem _ hm, hs⟩
      · rintro ⟨hm, hs⟩
        rcases List.mem_cons.mp hm with rfl | hm'
        · exact absurd (List.elem_iff.mp hc) hs
        · exact ⟨hm', hs⟩
    · rw [if_neg hc]
      rw [List.mem_cons, ih (c :: seen)]
      constructor
      · rintro (rfl | ⟨hm, hs⟩)
        · exact ⟨List.mem_cons_self _ _, fun hx => hc (List.elem_iff.mpr hx)⟩
        · exact ⟨List.mem_cons_of_mem _ hm,
            fun hx => hs (List.mem_cons_of_mem _ hx)⟩
      · rintro ⟨hm, hs⟩
        rcases List.mem_cons.mp hm with rfl | hm'
        · exact Or.inl rfl
        · by_cases hxc : x = c
          · exact Or.inl hxc
          · refine Or.inr ⟨hm', fun hx => ?_⟩
            rcases List.mem_cons.mp hx with rfl | hx'
            · exact hxc rfl
            · exact hs hx'

/-- Appending one element to the input either leaves the deduplication
unchanged (the value was already present) or appends it. -/
theorem firstDedupAux_append (c : String) (l : List String) :
    ∀ seen, firstDedupAux seen (l ++ [c])
      = firstDedupAux seen l ++ (if c ∈ seen ∨ c ∈ l then [] else [c]) := by
  induction l with
  | nil =>
    intro seen
    rw [List.nil_append]
    unfold firstDedupAux
    by_cases hc : seen.contains c = true
    · rw [if_pos hc, if_pos (Or.inl (List.elem_iff.mp hc))]
      rfl
    · have hnc : ¬(c ∈ seen ∨ c ∈ ([] : List String)) := by
        rintro (h | h)
        · exact hc (List.elem_iff.mpr h)
        · simp at h
      rw [if_neg hc, if_neg hnc]
      rfl
  | cons a l ih =>
    intro seen
    rw [List.cons_append]
    unfold firstDedupAux
    by_cases ha : seen.contains a = true
    · rw [if_pos ha, if_pos ha, ih seen]
      have hiff : (c ∈ seen ∨ c ∈ l) ↔ (c ∈ seen ∨ c ∈ a :: l) := by
        have haseen : a ∈ seen := List.elem_iff.mp ha
        constructor
        · rintro (h | h)
          · exact Or.inl h
          · exact Or.inr (List.mem_cons_of_mem _ h)
        · rintro (h | h)
          · exact Or.inl h
          · rcases List.mem_cons.mp h with rfl | h'
            · exact Or.inl haseen
            · exact Or.inr h'
      rw [if_congr hiff rfl rfl]
    · rw [if_neg ha, if_neg ha, ih (a :: seen)]
      have hiff : (c ∈ a :: seen ∨ c ∈ l) ↔ (c ∈ seen ∨ c ∈ a :: l) := by
        constructor
        · rintro (h | h)
          · rcases List.mem_cons.mp h with rfl | h'
            · exact Or.inr (List.mem_cons_self _ _)
            · exact Or.inl h'
          · exact Or.inr (List.mem_cons_of_mem _ h)
        · rintro (h | h)
          · exact Or.inl (List.mem_cons_of_mem _ h)
          · rcases List.mem_cons.mp h with rfl | h'
            · exact Or.inl (List.mem_cons_self _ _)
            · exact Or.inr h'
      rw [List.cons_append, if_congr hiff rfl rfl]

/-- One counter-dict update is one more tallied occurrence. -/
theorem bumpCount_tallySpec (m : List String) (c : String) :
    bumpCount (tallySpec m) c = tallySpec (m ++ [c]) := by
  by_cases hc : c ∈ m
  · have hmem : c ∈ firstDedup m := by
      rw [firstDedup, mem_firstDedupAux]
      exact ⟨hc, by simp⟩
    have hany : ((tallySpec m).any fun p => p.1 == c) = true := by
      rw [List.any_eq_true]
      exact ⟨(c, List.count c m), List.mem_map_of_mem _ hmem, by simp⟩
    have hfd : firstDedup (m ++ [c]) = firstDedup m := by
      rw [firstDedup, firstDedupAux_append, if_pos (Or.inr hc), List.append_nil]
      rfl
    rw [bumpCount, if_pos hany, tallySpec, tallySpec, hfd, List.map_map]
    apply List.map_congr_left
    intro d hd
    simp only [Function.comp_apply]
    by_cases hdc : d = c
    · subst hdc
      simp [List.count_append, List.count_cons]
    · have hbeq : (d == c) = false := by simp [hdc]
      simp [hbeq, List.count_append, List.count_cons, hdc]
  · have hany : ((tallySpec m).any fun p => p.1 == c) = false := by
      rw [List.any_eq_false]
      rintro ⟨d, n⟩ hmem
      simp only
      intro hdc
      rw [beq_iff_eq] at hdc
      subst hdc
      obtain ⟨d', hd', heq⟩ := List.mem_map.mp hmem
      rw [firstDedup, mem_firstDedupAux] at hd'
      cases heq
      exact hc hd'.1
    have hfd : firstDedup (m ++ [c]) = firstDedup m ++ [c] := by
      rw [firstDedup, firstDedupAux_append]
      have hnc : ¬(c ∈ ([] : List String) ∨ c ∈ m) := by
        rintro (h | h)
        · simp at h
        · exact hc h
      rw [if_neg hnc]
      rfl
    rw [bumpCount, if_neg (by rw [hany]; exact Bool.false_ne_true),
      tallySpec, tallySpec, hfd, List.map_append]
    congr 1
    · apply List.map_congr_left
      intro d hd
      rw [firstDedup, mem_firstDedupAux] at hd
      have hdc : d ≠ c := fun h => hc (h ▸ hd.1)
      simp [List.count_append, List.count_cons, hdc]
    · have h0 : List.count c m = 0 := List.count_eq_zero.mpr hc
      simp [List.count_append, List.count_cons, h0]

/-- Folding the counter-dict update over a category list tallies it. -/
theorem foldl_bumpCount (l : List String) :
    ∀ m, l.foldl bumpCount (tallySpec m) = tallySpec (m ++ l) := by
  induction l with
  | nil => intro m; simp
  | cons c l ih =>
    intro m
    rw [List.foldl_cons, bumpCount_tallySpec, ih, List.append_assoc]
    rfl

/-- The maximal counter value is the maximal per-category hit count. -/
theorem maxVals_tallySpec (l : List String) :
    maxVals (tallySpec l) = maxHitCount l := by
  rw [maxVals, tallySpec, maxHitCount, List.foldl_map]

/-- Folding the counter-dict update from the empty dict tallies the
category list. -/
theorem foldl_bumpCount_nil (l : List String) :
    l.foldl bumpCount [] = tallySpec l := by
  have h := foldl_bumpCount l []
  rw [List.nil_append] at h
  exact h

/-- Projecting the tally entries that reach a threshold recovers the
filtered key list. -/
theorem filter_map_pair (M : Nat) (g : String → Nat) (l : List String) :
    ((l.map fun c => (c, g c)).filter fun p => p.2 == M).map Prod.fst
      = l.filter fun c => g c == M := by
  induction l with
  | nil => rfl
  | cons a l ih =>
    rw [List.map_cons, List.filter_cons, List.filter_cons]
    by_cases h : (g a == M) = true
    · rw [if_pos h, if_pos h, List.map_cons, ih]
    · rw [if_neg h, if_neg h, ih]

/-- C5: `categorize_message` returns the sentinel "uncategorized" when
no rule's matcher finds its normalized phrase in the normalized message
(in particular for the empty rule list, whose `matchedCats` is `[]`);
otherwise it returns exactly the categories achieving the maximum hit
count, joined by ", " in first-encounter rule order, each matching rule
contributing exactly one increment to its category however often its
phrase occurs in the message. -/
theorem categorize_message_tiebreak :
    ∀ (message : String) (rules : List Ngram),
      categorize_message message rules =
        if matchedCats message rules = [] then "uncategorized"
        else
          joinCommaSpace ((firstDedup (matchedCats message rules)).filter
            fun c => (matchedCats message rules).count c
              == maxHitCount (matchedCats message rules)) := by
  intro message rules
  unfold categorize_message
  dsimp only
  rw [categorize_foldl_eq]
  rw [show ((rules.filter fun ng =>
        searchBounded ng.stemmed_phrase.toList (stem_text message).toList).map
        Ngram.category) = matchedCats message rules from rfl]
  rw [foldl_bumpCount_nil]
  rcases hmc : matchedCats message rules with _ | ⟨c0, rest⟩
  · rfl
  · have hne : (tallySpec (c0 :: rest)).isEmpty = false := rfl
    rw [if_neg (fun h => Bool.false_ne_true (hne ▸ h)),
      if_neg (List.cons_ne_nil c0 rest)]
    congr 1
    rw [maxVals_tallySpec, tallySpec, filter_map_pair]

/-- C7: the output schema contains `assigned_category` iff a rule list
was supplied and `lesson_relevancy` iff both a lesson embedding and a
model were; whenever such a column is present, every row dict carries
it — the optional columns are all-or-nothing per run, never per row. -/
theorem write_csv_optional_columns :
    ∀ {Emb Mdl : Type} (cosSim : Emb → Emb → ℚ) (encode : Mdl → String → Emb)
      (data : List Entry) (ngrams_list : Option (List Ngram))
      (lesson_embedding : Option Emb) (model : Option Mdl),
      ((write_csv cosSim encode data ngrams_list lesson_embedding model).1.contains
          "assigned_category" = ngrams_list.isSome)
      ∧ ((write_csv cosSim encode data ngrams_list lesson_embedding model).1.contains
          "lesson_relevancy" = (lesson_embedding.isSome && model.isSome))
      ∧ (∀ row,
          row ∈ (write_csv cosSim encode data ngrams_list lesson_embedding model).2 →
          (row.any fun p => p.1 == "assigned_category") = ngrams_list.isSome
          ∧ (row.any fun p => p.1 == "lesson_relevancy")
              = (lesson_embedding.isSome && model.isSome)) := by
  intro Emb Mdl cosSim encode data ngl le mdl
  refine ⟨?_, ?_, ?_⟩
  · rcases ngl with _ | ngl <;> rcases le with _ | le <;> rcases mdl with _ | mdl <;>
      rfl
  · rcases ngl with _ | ngl <;> rcases le with _ | le <;> rcases mdl with _ | mdl <;>
      rfl
  · intro row hrow
    unfold write_csv at hrow
    dsimp only at hrow
    rw [List.mem_map] at hrow
    obtain ⟨e, _, rfl⟩ := hrow
    constructor <;>
      rcases ngl with _ | ngl <;> rcases le with _ | le <;> rcases mdl with _ | mdl <;>
        simp [csvRow]

/-- Witness for C7: with a rule list supplied and no embedding, the
single row of a one-record run carries the `assigned_category` key. -/
theorem write_csv_optional_columns_witness :
    ((csvRow (fun _ _ : Unit => (0 : ℚ)) (fun (_ : Unit) (_ : String) => ())
        (some []) none none sampleChat5).any
        fun p => p.1 == "assigned_category")
      = (some ([] : List Ngram)).isSome :=
  ((write_csv_optional_columns (fun _ _ : Unit => (0 : ℚ))
    (fun (_ : Unit) (_ : String) => ()) [sampleChat5] (some []) none
    none).2.2 _ (List.mem_cons_self _ _)).1

end ZoomParser
